import Mathlib

/-!
Shallow embedding of the localization and authentication core of the
TMSITI FastAPI backend (`app/middlewares/language.py`,
`app/services/utils.py`, `app/services/auth_service.py`,
`app/api/v1/auth.py`, `app/core/config.py`).

Python strings are modelled as `List Char` (`PyStr`); Python `None` as
`Option.none`; Python exceptions as `Except`; float weights from
`Accept-Language` q-values as exact fractions (`PyFloat`) parsed from the
decimal text (the common decimal/exponent forms accepted by Python's
`float`; special values such as `inf`/`nan` and digit underscores are
outside the modelled grammar).  Database side effects are explicit state
passing on a `List User`.
-/

namespace TMSITI

/-- Python `str` modelled as its character sequence. -/
abbrev PyStr := List Char

/-- Python truthiness of an optional string attribute value
(`None` and `""` are falsy). -/
def pyTruthy : Option PyStr → Bool
  | none => false
  | some s => s ≠ []

/-- Python `str.split(sep)` for a one-character separator
(always returns at least one piece; empty input gives `[[]]`). -/
def pySplit (sep : Char) : PyStr → List PyStr
  | [] => [[]]
  | c :: cs =>
    let rest := pySplit sep cs
    if c = sep then [] :: rest
    else match rest with
      | [] => [[c]]
      | r :: rs => (c :: r) :: rs

/-- Python `str.strip()` (whitespace on both ends). -/
def pyStrip (s : PyStr) : PyStr :=
  (s.dropWhile Char.isWhitespace).reverse.dropWhile Char.isWhitespace |>.reverse

/-- Python `str.lower()` (ASCII lowering, which is all the source's
language tags need). -/
def pyLower (s : PyStr) : PyStr := s.map Char.toLower

/-- `app/core/config.py`: `Settings.supported_languages`. -/
def supported_languages : List PyStr := ["uz".toList, "ru".toList, "en".toList]

/-- `app/core/config.py`: `Settings.default_language`. -/
def default_language : PyStr := "uz".toList

/-- `app/core/config.py`: `Settings.max_page_size`. -/
def max_page_size : Int := 100

/-- `app/services/utils.py`: `validate_pagination_params(skip, limit)`:
clamps `skip` below by `0` and `limit` into `[1, max_page_size]`. -/
def validate_pagination_params (skip limit : Int) : Int × Int :=
  (max 0 skip, max 1 (min limit max_page_size))

/-! ## Language negotiation (`app/middlewares/language.py`, `_detect_language`) -/

/-- Exact rational value of a parsed float literal, kept un-normalised
(numerator over a power-of-ten denominator) so comparisons are plain
integer arithmetic. -/
structure PyFloat where
  num : Int
  den : Nat
  deriving DecidableEq, Repr

/-- Value order on parsed floats (cross multiplication; denominators are
powers of ten, hence positive, by construction). -/
def PyFloat.le (a b : PyFloat) : Prop :=
  a.num * (b.den : Int) ≤ b.num * (a.den : Int)

instance : ∀ a b : PyFloat, Decidable (PyFloat.le a b) :=
  fun _ _ => inferInstanceAs (Decidable (_ ≤ _))

/-- Value of a nonempty run of decimal digits; `none` when the run is
empty or contains a non-digit (Python `float` rejects those pieces). -/
def parseDigits (cs : List Char) : Option Nat :=
  match cs with
  | [] => none
  | _ =>
    if cs.all Char.isDigit then
      some (cs.foldl (fun a c => a * 10 + (c.toNat - 48)) 0)
    else none

/-- Digit run allowing emptiness (integral/fractional part of a float
literal may each be empty as long as not both are). -/
def digitsVal (cs : List Char) : Nat :=
  cs.foldl (fun a c => a * 10 + (c.toNat - 48)) 0

/-- Split a character list at the first character satisfying `p`,
returning the prefix and (when the separator occurs) the suffix. -/
def splitFirst (p : Char → Bool) : List Char → List Char × Option (List Char)
  | [] => ([], none)
  | c :: cs =>
    if p c then ([], some cs)
    else
      let r := splitFirst p cs
      (c :: r.1, r.2)

/-- Mantissa of a Python float literal: `digits[.digits]` or `.digits`,
at least one digit overall. -/
def parseMantissa (cs : List Char) : Option PyFloat :=
  let r := splitFirst (· = '.') cs
  match r.2 with
  | none => (parseDigits r.1).map (fun n => ⟨(n : Int), 1⟩)
  | some fp =>
    if r.1 = [] ∧ fp = [] then none
    else if r.1.all Char.isDigit ∧ fp.all Char.isDigit then
      some ⟨(digitsVal r.1 * 10 ^ fp.length + digitsVal fp : Nat), 10 ^ fp.length⟩
    else none

/-- Exponent of a Python float literal: optional sign then digits. -/
def parseExp (cs : List Char) : Option Int :=
  match cs with
  | '+' :: r => (parseDigits r).map (fun n => (n : Int))
  | '-' :: r => (parseDigits r).map (fun n => -(n : Int))
  | r => (parseDigits r).map (fun n => (n : Int))

/-- Python `float(s)` on the decimal grammar the source exercises:
optional surrounding whitespace, optional sign, decimal mantissa,
optional `e`/`E` exponent.  Returns `none` where Python raises
`ValueError`.  Values are kept exact. -/
def pyFloat (s : PyStr) : Option PyFloat :=
  let t := pyStrip s
  let (sign, body) : Int × List Char :=
    match t with
    | '+' :: r => (1, r)
    | '-' :: r => (-1, r)
    | r => (1, r)
  let e := splitFirst (fun c => c = 'e' || c = 'E') body
  match e.2 with
  | none => (parseMantissa body).map (fun m => ⟨sign * m.num, m.den⟩)
  | some ex =>
    match parseMantissa e.1, parseExp ex with
    | some m, some k =>
      some (if 0 ≤ k then ⟨sign * m.num * (10 : Int) ^ k.toNat, m.den⟩
            else ⟨sign * m.num, m.den * 10 ^ (-k).toNat⟩)
    | _, _ => none

/-- `_detect_language`, quality extraction: Python
`float(quality.split('=')[1])` with `IndexError`/`ValueError`
defaulting to `1.0`. -/
def parseQuality (quality : PyStr) : PyFloat :=
  match pySplit '=' quality with
  | _ :: second :: _ => (pyFloat second).getD ⟨1, 1⟩
  | _ => ⟨1, 1⟩

/-- `_detect_language`, one loop iteration before the membership filter:
split off the quality on the first `;` (Python `split(';', 1)`), default
weight `1.0`; then strip, lower-case, and reduce a region tag to its
primary subtag. -/
def parseHeaderEntry (tag : PyStr) : PyStr × PyFloat :=
  let (lang0, q) : PyStr × PyFloat :=
    if tag.contains ';' then
      match pySplit ';' tag with
      | lang :: rest => (lang, parseQuality (List.intercalate [';'] rest))
      | [] => (tag, ⟨1, 1⟩)
    else (tag, ⟨1, 1⟩)
  let lang1 := pyLower (pyStrip lang0)
  let lang := if lang1.contains '-' then (pySplit '-' lang1).headD [] else lang1
  (lang, q)

/-- `_detect_language`, the `languages` list: entries of the
`Accept-Language` header, parsed in order, restricted to the supported
set. -/
def header_candidates (accept_language : PyStr) : List (PyStr × PyFloat) :=
  (pySplit ',' accept_language).filterMap fun tag =>
    let e := parseHeaderEntry tag
    if e.1 ∈ supported_languages then some e else none

/-- Stable insertion by descending weight: an element goes before the
first element whose weight it reaches, so earlier-listed entries stay
first on ties — the behaviour of Python's stable
`sort(key=..., reverse=True)`. -/
def insertByQ (x : PyStr × PyFloat) : List (PyStr × PyFloat) → List (PyStr × PyFloat)
  | [] => [x]
  | y :: l => if PyFloat.le y.2 x.2 then x :: y :: l else y :: insertByQ x l

/-- `languages.sort(key=lambda x: x[1], reverse=True)`: stable sort by
weight descending. -/
def sortByQDesc : List (PyStr × PyFloat) → List (PyStr × PyFloat)
  | [] => []
  | x :: xs => insertByQ x (sortByQDesc xs)

/-- `_detect_language`, header phase and default: highest-quality
surviving entry, or the configured default when none survived. -/
def detect_from_header (accept_language : PyStr) : PyStr :=
  match sortByQDesc (header_candidates accept_language) with
  | [] => default_language
  | x :: _ => x.1

/-- `LanguageMiddleware._detect_language`: explicit `lang` query
parameter when truthy and supported, else the `Accept-Language` header,
else the configured default. -/
def detect_language (lang_param : Option PyStr) (accept_language : PyStr) : PyStr :=
  match lang_param with
  | some p =>
    if p ≠ [] ∧ p ∈ supported_languages then p
    else detect_from_header accept_language
  | none => detect_from_header accept_language

/-- A truthy, supported explicit override (`lang` query parameter). -/
def valid_override : Option PyStr → Prop
  | none => False
  | some p => p ≠ [] ∧ p ∈ supported_languages

instance : ∀ p, Decidable (valid_override p) := fun p => by
  cases p <;> unfold valid_override <;> infer_instance

/-! ## Localized field resolution and multilingual validation -/

/-- A model entity: attribute name to attribute value.  A missing
attribute and a Python `None`-valued attribute both come out as `none`
through `getattr(obj, name, None)`. -/
abbrev Entity := List (PyStr × Option PyStr)

/-- Python `getattr(obj, name, None)` over the modelled entity. -/
def pyGetAttr (obj : Entity) (name : PyStr) : Option PyStr :=
  match obj.find? (fun kv => kv.1 == name) with
  | none => none
  | some kv => kv.2

/-- `field_prefix + "_" + language`, the source's f-string
`f"{field_prefix}_{language}"`. -/
def localizedFieldName (fieldPref language : PyStr) : PyStr :=
  fieldPref ++ '_' :: language

/-- The fallback loop shared by `get_localized_model_field`
(`app/middlewares/language.py`) and `get_localized_content`
(`app/services/utils.py`): scan the language list in order, skip the
already-tried language, return the first truthy value, else `""`. -/
def fallback_scan (obj : Entity) (fieldPref language : PyStr) :
    List PyStr → PyStr
  | [] => []
  | l :: ls =>
    if l ≠ language then
      let v := pyGetAttr obj (localizedFieldName fieldPref l)
      if pyTruthy v then v.getD []
      else fallback_scan obj fieldPref language ls
    else fallback_scan obj fieldPref language ls

/-- `app/middlewares/language.py`: `get_localized_model_field(obj,
field_prefix, language)`. -/
def get_localized_model_field (obj : Entity) (fieldPref language : PyStr) :
    PyStr :=
  let value := pyGetAttr obj (localizedFieldName fieldPref language)
  if pyTruthy value then value.getD []
  else fallback_scan obj fieldPref language supported_languages

/-- `app/services/utils.py`: `get_localized_content(obj, field_prefix,
language)` — same algorithm with the fallback list written out literally
as `["uz", "ru", "en"]`. -/
def get_localized_content (obj : Entity) (fieldPref language : PyStr) :
    PyStr :=
  let content := pyGetAttr obj (localizedFieldName fieldPref language)
  if pyTruthy content then content.getD []
  else
    fallback_scan obj fieldPref language
      ["uz".toList, "ru".toList, "en".toList]

/-- A multilingual payload: a Python dict from language code to string
value. -/
abbrev MultilingualData := List (PyStr × PyStr)

/-- Python `lang in data` on the payload dict. -/
def dictContains (d : MultilingualData) (k : PyStr) : Bool :=
  d.any (fun kv => kv.1 == k)

/-- Python `data[lang]` (as an option; the source only subscripts after
the membership test). -/
def dictGet (d : MultilingualData) (k : PyStr) : Option PyStr :=
  (d.find? (fun kv => kv.1 == k)).map (·.2)

/-- `LocalizationHelper.validate_multilingual_data`, the `for` loop with
its early `return False`. -/
def validate_loop (data : MultilingualData) : List PyStr → Bool
  | [] => true
  | lang :: rest =>
    if ¬ dictContains data lang ∨ pyStrip ((dictGet data lang).getD []) = []
    then false
    else validate_loop data rest

/-- `app/middlewares/language.py`:
`LocalizationHelper.validate_multilingual_data(data,
required_languages)`; `required_languages=None` defaults to the full
configured language list. -/
def validate_multilingual_data (data : MultilingualData)
    (required_languages : Option (List PyStr)) : Bool :=
  validate_loop data (required_languages.getD supported_languages)

/-- The round-trip entity of the spec's example: `content_en = "X"`, the
other language fields empty. -/
def content_sample : Entity :=
  [("content_uz".toList, some []), ("content_ru".toList, some []),
   ("content_en".toList, some ("X".toList))]

/-! ## Authentication and authorization
(`app/api/v1/auth.py`, `app/services/auth_service.py`; the token
primitives live in `app/core/security.py`, which is not part of the
sources and is therefore modelled from the spec). -/

/-- `app/db/models/user.py`: the `User` row (the fields the auth paths
read or write). -/
structure User where
  id : Int
  username : PyStr
  email : PyStr
  hashed_password : PyStr
  is_active : Bool
  is_admin : Bool
  is_moderator : Bool
  last_login : Option Int
  deriving DecidableEq, Repr

/-- The users table; the ORM session is explicit state. -/
abbrev DB := List User

/-- Modelled from the spec: the claims carried by a signed token
(`{subject, type, issued-at, expires-at}` per §6; `payload.get("sub")`
and `payload.get("type")` may be absent, hence options). -/
structure TokenClaims where
  sub : Option Int
  typ : Option PyStr
  iat : Int
  exp : Int
  deriving DecidableEq, Repr

/-- Modelled from the spec: a signed token — the claims plus the key it
was signed with; signature verification is modelled as comparing that
key with the process secret (§4.1: any scheme providing integrity
suffices). -/
structure SignedToken where
  claims : TokenClaims
  signedWith : PyStr
  deriving DecidableEq, Repr

/-- Modelled from the spec (§4.1 `decodeToken` failure taxonomy). -/
inductive TokenError where
  | invalidToken
  | expiredToken
  deriving DecidableEq, Repr

/-- `app/core/config.py`: `access_token_expire_minutes = 30`, in
seconds. -/
def access_token_ttl : Int := 30 * 60

/-- `app/core/config.py`: `refresh_token_expire_days = 7`, in
seconds. -/
def refresh_token_ttl : Int := 7 * 24 * 60 * 60

/-- Modelled from the spec: `create_access_token(subject)` — claims
`{sub, type="access", iat=now, exp=now+ttl}` signed with the process
secret. -/
def create_access_token (secret : PyStr) (now : Int) (subject : Int) :
    SignedToken :=
  ⟨⟨some subject, some ("access".toList), now, now + access_token_ttl⟩, secret⟩

/-- Modelled from the spec: `create_refresh_token(subject)` — same
claims with `type="refresh"` and the longer ttl. -/
def create_refresh_token (secret : PyStr) (now : Int) (subject : Int) :
    SignedToken :=
  ⟨⟨some subject, some ("refresh".toList), now, now + refresh_token_ttl⟩, secret⟩

/-- Modelled from the spec: `decode_token` verifies the signature and
the expiry and returns the claims; it does not look at the type claim
(§4.1: "the service does not enforce which endpoint accepts which
type"). -/
def decode_token (secret : PyStr) (now : Int) (tok : SignedToken) :
    Except TokenError TokenClaims :=
  if tok.signedWith ≠ secret then .error .invalidToken
  else if tok.claims.exp ≤ now then .error .expiredToken
  else .ok tok.claims

/-- The gate's failure outcomes (`HTTPException` status codes in
`app/api/v1/auth.py`; `internal` is the uncaught `TypeError` from
`int(None)` on the refresh path). -/
inductive GateError where
  | unauthorized
  | forbidden
  | internal
  deriving DecidableEq, Repr

instance {ε α : Type} [DecidableEq ε] [DecidableEq α] :
    DecidableEq (Except ε α) := fun a b =>
  match a, b with
  | .error x, .error y =>
    if h : x = y then isTrue (by rw [h])
    else isFalse (fun hc => h (Except.error.inj hc))
  | .error _, .ok _ => isFalse (fun hc => Except.noConfusion hc)
  | .ok _, .error _ => isFalse (fun hc => Except.noConfusion hc)
  | .ok x, .ok y =>
    if h : x = y then isTrue (by rw [h])
    else isFalse (fun hc => h (Except.ok.inj hc))

/-- `app/api/v1/auth.py`: `get_current_user` — decode the bearer token
(any decode failure surfaces as 401), read `sub`, look the user up by
id, reject a missing or inactive user with 401.  The token's type claim
is never consulted. -/
def get_current_user (secret : PyStr) (now : Int) (db : DB)
    (tok : SignedToken) : Except GateError User :=
  match decode_token secret now tok with
  | .error _ => .error .unauthorized
  | .ok payload =>
    match payload.sub with
    | none => .error .unauthorized
    | some uid =>
      match db.find? (fun u => u.id == uid) with
      | none => .error .unauthorized
      | some u => if u.is_active then .ok u else .error .unauthorized

/-- `app/api/v1/auth.py`: `get_admin_user` — 403 unless `is_admin`. -/
def get_admin_user (secret : PyStr) (now : Int) (db : DB)
    (tok : SignedToken) : Except GateError User :=
  match get_current_user secret now db tok with
  | .error e => .error e
  | .ok u => if u.is_admin then .ok u else .error .forbidden

/-- `app/api/v1/auth.py`: `get_moderator_user` — 403 unless
`is_admin or is_moderator`. -/
def get_moderator_user (secret : PyStr) (now : Int) (db : DB)
    (tok : SignedToken) : Except GateError User :=
  match get_current_user secret now db tok with
  | .error e => .error e
  | .ok u =>
    if u.is_admin || u.is_moderator then .ok u else .error .forbidden

/-- `app/services/auth_service.py`:
`AuthService.verify_user_permissions(user, required_role)`. -/
def verify_user_permissions (user : User) (required_role : PyStr) : Bool :=
  if ¬ user.is_active then false
  else if required_role = "admin".toList then user.is_admin
  else if required_role = "moderator".toList then
    user.is_admin || user.is_moderator
  else if required_role = "user".toList then true
  else false

/-- `app/api/v1/auth.py`: the `/refresh` endpoint — decode, reject a
token whose `type` claim is not `"refresh"` with 401, then look the
subject up and mint a fresh token pair (`int(user_id)` on an absent
`sub` is an uncaught `TypeError`, modelled as `internal`). -/
def refresh_endpoint (secret : PyStr) (now : Int) (db : DB)
    (tok : SignedToken) : Except GateError (SignedToken × SignedToken) :=
  match decode_token secret now tok with
  | .error _ => .error .unauthorized
  | .ok payload =>
    if payload.typ ≠ some ("refresh".toList) then .error .unauthorized
    else
      match payload.sub with
      | none => .error .internal
      | some uid =>
        match db.find? (fun u => u.id == uid) with
        | none => .error .unauthorized
        | some u =>
          if u.is_active then
            .ok (create_access_token secret now u.id,
                 create_refresh_token secret now u.id)
          else .error .unauthorized

/-- Modelled from the spec: `get_password_hash` / `verify_password`
(§4.1) — the one-way salted hash is abstracted as an injective tagging;
`verify_password(p, h)` succeeds exactly when `h` is the hash of `p`. -/
def get_password_hash (plaintext : PyStr) : PyStr :=
  '#' :: plaintext

/-- Modelled from the spec: `verify_password(plaintext, hashed)`. -/
def verify_password (plaintext hashed : PyStr) : Bool :=
  hashed == get_password_hash plaintext

/-- Replace the first list element satisfying `p` (the ORM mutating the
single queried row and committing). -/
def updateFirst (p : α → Bool) (f : α → α) : List α → List α
  | [] => []
  | x :: xs => if p x then f x :: xs else x :: updateFirst p f xs

/-- `app/api/v1/auth.py`: the `/login` endpoint over explicit DB state —
find the user by username, 401 on unknown user or wrong password, 401 on
an inactive account (both leaving the DB untouched), else set
`last_login = now`, commit, and mint the token pair. -/
def login (secret : PyStr) (now : Int) (db : DB)
    (username password : PyStr) :
    Except GateError (SignedToken × SignedToken) × DB :=
  match db.find? (fun u => u.username == username) with
  | none => (.error .unauthorized, db)
  | some u =>
    if ¬ verify_password password u.hashed_password then
      (.error .unauthorized, db)
    else if ¬ u.is_active then (.error .unauthorized, db)
    else
      (.ok (create_access_token secret now u.id,
            create_refresh_token secret now u.id),
       updateFirst (fun v => v.username == username)
         (fun v => { v with last_login := some now }) db)

/-- `app/services/auth_service.py`:
`AuthService.authenticate_user(db, username, password)` over explicit DB
state — lookup by username or email, `None` without commit on unknown
user, wrong password or inactive account, else set `last_login = now`
and commit. -/
def authenticate_user (now : Int) (db : DB) (username password : PyStr) :
    Option User × DB :=
  match db.find? (fun u => u.username == username || u.email == username) with
  | none => (none, db)
  | some u =>
    if ¬ verify_password password u.hashed_password then (none, db)
    else if ¬ u.is_active then (none, db)
    else
      let u' := { u with last_login := some now }
      (some u',
       updateFirst (fun v => v.username == username || v.email == username)
         (fun v => { v with last_login := some now }) db)

/-- A concrete secret for closed instances. -/
def test_secret : PyStr := "test-secret-key".toList

/-- A concrete active, non-admin, non-moderator user. -/
def alice : User :=
  ⟨1, "alice".toList, "alice@example.com".toList,
   get_password_hash ("wonderland".toList), true, false, false, none⟩

/-- A concrete active admin user. -/
def bob : User :=
  ⟨2, "bob".toList, "bob@example.com".toList,
   get_password_hash ("builder".toList), true, true, false, none⟩

/-- The state-passing translation of `get_current_user`: the Python body
contains only queries, so every branch hands the session state back
untouched; proving that (and idempotence) below is the content of the
decode-is-side-effect-free part of the spec. -/
def get_current_user_db (secret : PyStr) (now : Int) (db : DB)
    (tok : SignedToken) : Except GateError User × DB :=
  match decode_token secret now tok with
  | .error _ => (.error .unauthorized, db)
  | .ok payload =>
    match payload.sub with
    | none => (.error .unauthorized, db)
    | some uid =>
      match db.find? (fun u => u.id == uid) with
      | none => (.error .unauthorized, db)
      | some u =>
        if u.is_active then (.ok u, db) else (.error .unauthorized, db)

/-! ## Phrase-table lookup (`app/middlewares/language.py`,
`_load_localization_files` / `_get_localized_text`) -/

/-- Result of reading one phrase-table file
(`_load_localization_files`): `FileNotFoundError`,
`json.JSONDecodeError`, or the parsed flat mapping. -/
inductive FileResult where
  | missing
  | invalid
  | table (t : List (PyStr × PyStr))

/-- `_load_localization_files` composed with the later
`self.localization_cache.get(language, {})`: a supported language's
entry is its file's mapping, with the empty table for a missing or
unparseable file; a language outside the loaded set falls back to the
`.get` default `{}`. -/
def localization_cache (files : PyStr → FileResult) (language : PyStr) :
    List (PyStr × PyStr) :=
  if language ∈ supported_languages then
    match files language with
    | .missing => []
    | .invalid => []
    | .table t => t
  else []

/-- The suffix returned by `splitFirst` is strictly shorter than the
input; termination measure of the format scanner below. -/
theorem splitFirst_snd_length {p : Char → Bool} :
    ∀ {cs after : List Char}, (splitFirst p cs).2 = some after →
      after.length < cs.length := by
  intro cs
  induction cs with
  | nil =>
    intro after h
    simp [splitFirst] at h
  | cons c cs ih =>
    intro after h
    unfold splitFirst at h
    by_cases hp : p c
    · simp [hp] at h
      subst h
      exact Nat.lt_succ_self _
    · simp [hp] at h
      exact Nat.lt_succ_of_lt (ih h)

/-- Python `str.format(**kwargs)` on the subset the phrase tables use:
literal text, `\x7b\x7b`/`\x7d\x7d` escapes, and a plain named field
replaced from the keyword arguments.  `.error` marks the cases where
Python raises (`KeyError` for an unknown name, `IndexError` for an
empty field, `ValueError` for a stray brace); conversion and format-spec
syntax is outside the modelled subset. -/
def pyFormat (kwargs : List (PyStr × PyStr)) : PyStr → Except Unit PyStr
  | [] => .ok []
  | '{' :: '{' :: rest => (pyFormat kwargs rest).map (fun t => '{' :: t)
  | '}' :: '}' :: rest => (pyFormat kwargs rest).map (fun t => '}' :: t)
  | '}' :: _ => .error ()
  | '{' :: rest =>
    match hr : (splitFirst (· = '}') rest).2 with
    | none => .error ()
    | some after =>
      let name := (splitFirst (· = '}') rest).1
      if name = [] then .error ()
      else
        match (kwargs.find? (fun kv => kv.1 == name)).map (·.2) with
        | none => .error ()
        | some v => (pyFormat kwargs after).map (fun t => v ++ t)
  | c :: rest => (pyFormat kwargs rest).map (fun t => c :: t)
  termination_by s => s.length
  decreasing_by
    all_goals simp_wf
    all_goals try omega
    all_goals have h := splitFirst_snd_length hr
    all_goals omega

/-- `LanguageMiddleware._get_localized_text(key, language, **kwargs)`:
table lookup defaulting to the key itself, then `str.format` when the
kwargs dict is truthy, with the surrounding `try/except` returning the
key on any formatting failure. -/
def get_localized_text (files : PyStr → FileResult) (key language : PyStr)
    (kwargs : List (PyStr × PyStr)) : PyStr :=
  let localization := localization_cache files language
  let text := ((localization.find? (fun kv => kv.1 == key)).map (·.2)).getD key
  if kwargs ≠ [] then
    match pyFormat kwargs text with
    | .ok t => t
    | .error _ => key
  else text

end TMSITI

namespace TMSITI

theorem PyFloat.le_total (a b : PyFloat) : PyFloat.le a b ∨ PyFloat.le b a := by
  unfold PyFloat.le
  exact Int.le_total _ _

theorem PyFloat.le_refl (a : PyFloat) : PyFloat.le a a := Int.le_refl _

theorem PyFloat.le_trans {a b c : PyFloat} (hb : 0 < b.den)
    (h1 : PyFloat.le a b) (h2 : PyFloat.le b c) : PyFloat.le a c := by
  unfold PyFloat.le at h1 h2 ⊢
  have hbz : (0 : Int) < (b.den : Int) := by exact_mod_cast hb
  have h1' := mul_le_mul_of_nonneg_right h1 (Int.natCast_nonneg c.den)
  have h2' := mul_le_mul_of_nonneg_right h2 (Int.natCast_nonneg a.den)
  have key : a.num * c.den * b.den ≤ c.num * a.den * b.den := by nlinarith [h1', h2']
  exact le_of_mul_le_mul_right key hbz

theorem parseMantissa_den_pos {cs : List Char} {m : PyFloat}
    (h : parseMantissa cs = some m) : 0 < m.den := by
  unfold parseMantissa at h
  dsimp only at h
  split at h
  · rcases Option.map_eq_some'.mp h with ⟨n, _, rfl⟩
    exact Nat.one_pos
  · split at h
    · exact absurd h (by simp)
    · split at h
      · cases h
        exact Nat.pos_pow_of_pos _ (by norm_num)
      · exact absurd h (by simp)

theorem pyFloat_den_pos {s : PyStr} {f : PyFloat}
    (h : pyFloat s = some f) : 0 < f.den := by
  unfold pyFloat at h
  dsimp only at h
  split at h
  · rcases Option.map_eq_some'.mp h with ⟨m, hm, hf⟩
    rw [← hf]
    show 0 < m.den
    exact parseMantissa_den_pos hm
  · split at h
    · rename_i m k hm hk
      split at h <;> cases h
      · show 0 < m.den
        exact parseMantissa_den_pos hm
      · show 0 < m.den * 10 ^ (-k).toNat
        exact Nat.mul_pos (parseMantissa_den_pos hm)
          (Nat.pos_pow_of_pos _ (by norm_num))
    · exact absurd h (by simp)

theorem parseQuality_den_pos (quality : PyStr) : 0 < (parseQuality quality).den := by
  unfold parseQuality
  split
  · rename_i hd second tl heq
    cases hf : pyFloat second with
    | none => simp [hf]
    | some f => simpa [hf] using pyFloat_den_pos hf
  · exact Nat.one_pos

theorem parseHeaderEntry_den_pos (tag : PyStr) : 0 < (parseHeaderEntry tag).2.den := by
  unfold parseHeaderEntry
  dsimp only
  split
  · split
    · exact parseQuality_den_pos _
    · exact Nat.one_pos
  · exact Nat.one_pos

theorem header_candidates_den_pos (h : PyStr) :
    ∀ x ∈ header_candidates h, 0 < x.2.den := by
  intro x hx
  unfold header_candidates at hx
  rcases List.mem_filterMap.mp hx with ⟨tag, _, htag⟩
  by_cases hmem : (parseHeaderEntry tag).1 ∈ supported_languages
  · simp only [hmem, if_pos] at htag
    cases htag
    exact parseHeaderEntry_den_pos tag
  · simp [hmem] at htag

theorem header_candidates_lang_mem (h : PyStr) :
    ∀ x ∈ header_candidates h, x.1 ∈ supported_languages := by
  intro x hx
  unfold header_candidates at hx
  rcases List.mem_filterMap.mp hx with ⟨tag, _, htag⟩
  by_cases hmem : (parseHeaderEntry tag).1 ∈ supported_languages
  · simp only [hmem, if_pos] at htag
    cases htag
    exact hmem
  · simp [hmem] at htag

theorem mem_insertByQ {x y : PyStr × PyFloat} {l : List (PyStr × PyFloat)}
    (h : x ∈ insertByQ y l) : x = y ∨ x ∈ l := by
  induction l with
  | nil => simpa [insertByQ] using h
  | cons z zs ih =>
    unfold insertByQ at h
    split at h
    · simpa using h
    · rcases List.mem_cons.mp h with h | h
      · right
        exact h ▸ List.mem_cons_self z zs
      · rcases ih h with h | h
        · exact Or.inl h
        · exact Or.inr (List.mem_cons_of_mem z h)

theorem mem_sortByQDesc {x : PyStr × PyFloat} {l : List (PyStr × PyFloat)}
    (h : x ∈ sortByQDesc l) : x ∈ l := by
  induction l with
  | nil => simpa [sortByQDesc] using h
  | cons z zs ih =>
    unfold sortByQDesc at h
    rcases mem_insertByQ h with h | h
    · exact h ▸ List.mem_cons_self z zs
    · exact List.mem_cons_of_mem z (ih h)

/-- Head of the stable descending sort: it is a maximal-weight element of
the input, and every input element listed before it has strictly smaller
weight (the "ties resolve to the earliest entry" contract). -/
theorem sortByQDesc_head (l : List (PyStr × PyFloat))
    (hpos : ∀ x ∈ l, 0 < x.2.den) (hne : l ≠ []) :
    ∃ p t l₁ l₂, sortByQDesc l = p :: t ∧ l = l₁ ++ p :: l₂ ∧
      (∀ x ∈ l, PyFloat.le x.2 p.2) ∧ (∀ x ∈ l₁, ¬ PyFloat.le p.2 x.2) := by
  induction l with
  | nil => exact absurd rfl hne
  | cons x xs ih =>
    rcases xs with _ | ⟨z, zs⟩
    · refine ⟨x, [], [], [], by simp [sortByQDesc, insertByQ], by simp, ?_, by simp⟩
      intro y hy
      rcases List.mem_singleton.mp hy with rfl
      exact PyFloat.le_refl _
    · have hpos' : ∀ y ∈ z :: zs, 0 < y.2.den := fun y hy =>
        hpos y (List.mem_cons_of_mem x hy)
      rcases ih hpos' (by simp) with ⟨q, t, m₁, m₂, hsort, hdecomp, hmax, hbefore⟩
      show ∃ p t l₁ l₂, insertByQ x (sortByQDesc (z :: zs)) = p :: t ∧ _
      rw [hsort]
      by_cases hle : PyFloat.le q.2 x.2
      · refine ⟨x, q :: t, [], z :: zs, by simp [insertByQ, hle], by simp, ?_, by simp⟩
        intro y hy
        rcases List.mem_cons.mp hy with rfl | hy
        · exact PyFloat.le_refl _
        · exact PyFloat.le_trans (hpos q (hdecomp ▸ List.mem_cons_of_mem x
            (List.mem_append_right m₁ (List.mem_cons_self q m₂)))) (hmax y hy) hle
      · refine ⟨q, insertByQ x t, x :: m₁, m₂, by simp [insertByQ, hle], by
          simpa using congrArg (x :: ·) hdecomp, ?_, ?_⟩
        · intro y hy
          rcases List.mem_cons.mp hy with rfl | hy
          · rcases PyFloat.le_total y.2 q.2 with h | h
            · exact h
            · exact absurd h hle
          · exact hmax y hy
        · intro y hy
          rcases List.mem_cons.mp hy with rfl | hy
          · exact hle
          · exact hbefore y hy

/-- C3: for every header, the negotiator's header phase (parsing with
whitespace stripping, lower-casing, region-tag reduction and a default
weight of `1.0`, then filtering on the configured set — all captured in
`header_candidates`) selects a surviving entry of maximal weight, every
entry listed before which has strictly smaller weight (ties resolve to
the earliest entry); and the header `"fr;q=0.5, ru;q=0.9, xx;q=1.0"`
with configured set `{uz, ru, en}` yields `ru`. -/
theorem c3_header_selects_earliest_max :
    (∀ accept_language : PyStr, header_candidates accept_language ≠ [] →
      ∃ p l₁ l₂,
        header_candidates accept_language = l₁ ++ p :: l₂ ∧
        detect_from_header accept_language = p.1 ∧
        (∀ x ∈ header_candidates accept_language, PyFloat.le x.2 p.2) ∧
        (∀ x ∈ l₁, ¬ PyFloat.le p.2 x.2)) ∧
    detect_language none ("fr;q=0.5, ru;q=0.9, xx;q=1.0".toList) = "ru".toList := by
  constructor
  · intro h hne
    rcases sortByQDesc_head (header_candidates h) (header_candidates_den_pos h) hne
      with ⟨p, t, l₁, l₂, hsort, hdecomp, hmax, hbefore⟩
    refine ⟨p, l₁, l₂, hdecomp, ?_, hmax, hbefore⟩
    unfold detect_from_header
    rw [hsort]
  · decide

/-- Closed instantiation of `c3_header_selects_earliest_max` at the
header `"en;q=0.8,uz"` (candidates `[(en, 0.8), (uz, 1.0)]`). -/
theorem c3_header_selects_earliest_max_witness :
    ∃ p l₁ l₂,
      header_candidates ("en;q=0.8,uz".toList) = l₁ ++ p :: l₂ ∧
      detect_from_header ("en;q=0.8,uz".toList) = p.1 ∧
      (∀ x ∈ header_candidates ("en;q=0.8,uz".toList), PyFloat.le x.2 p.2) ∧
      (∀ x ∈ l₁, ¬ PyFloat.le p.2 x.2) :=
  c3_header_selects_earliest_max.1 ("en;q=0.8,uz".toList) (by decide)

/-- C4: a truthy explicit `lang` override that belongs to the configured
set is selected regardless of the header content. -/
theorem c4_override_wins (accept_language p : PyStr)
    (hp : p ∈ supported_languages) :
    detect_language (some p) accept_language = p := by
  have hne : p ≠ [] := by
    simp only [supported_languages, List.mem_cons, List.not_mem_nil, or_false] at hp
    rcases hp with rfl | rfl | rfl <;> decide
  simp [detect_language, hp, hne]

/-- Closed instantiation of `c4_override_wins`: override `ru` beats a
header preferring `en`. -/
theorem c4_override_wins_witness :
    detect_language (some ("ru".toList)) ("en".toList) = "ru".toList :=
  c4_override_wins ("en".toList) ("ru".toList) (by decide)

/-- C6: the negotiated language is always a member of the configured
set; with no valid override and no surviving header entry the configured
default is selected; and an empty header with no override yields the
default `uz`. -/
theorem c6_result_supported_and_default :
    (∀ (lang_param : Option PyStr) (accept_language : PyStr),
      detect_language lang_param accept_language ∈ supported_languages) ∧
    (∀ (lang_param : Option PyStr) (accept_language : PyStr),
      ¬ valid_override lang_param → header_candidates accept_language = [] →
      detect_language lang_param accept_language = default_language) ∧
    detect_language none ("".toList) = "uz".toList := by
  have hheader : ∀ accept_language : PyStr,
      detect_from_header accept_language ∈ supported_languages := by
    intro h
    unfold detect_from_header
    rcases hs : sortByQDesc (header_candidates h) with _ | ⟨x, t⟩
    · decide
    · exact header_candidates_lang_mem h x
        (mem_sortByQDesc (hs ▸ List.mem_cons_self x t))
  have hdefault : ∀ accept_language : PyStr,
      header_candidates accept_language = [] →
      detect_from_header accept_language = default_language := by
    intro h hnone
    unfold detect_from_header
    rw [hnone]
    rfl
  refine ⟨?_, ?_, by decide⟩
  · intro lang_param accept_language
    cases lang_param with
    | none => exact hheader accept_language
    | some p =>
      unfold detect_language
      dsimp only
      split
      · rename_i hcond
        exact hcond.2
      · exact hheader accept_language
  · intro lang_param accept_language hov hnone
    cases lang_param with
    | none => exact hdefault accept_language hnone
    | some p =>
      unfold detect_language
      dsimp only
      split
      · rename_i hcond
        exact absurd hcond hov
      · exact hdefault accept_language hnone

/-- Closed instantiation of `c6_result_supported_and_default`:
unsupported override `fr` and a header naming only unsupported codes
fall back to the default `uz`. -/
theorem c6_result_supported_and_default_witness :
    detect_language (some ("fr".toList)) ("de,xx;q=0.9".toList) = default_language :=
  c6_result_supported_and_default.2.1 (some ("fr".toList)) ("de,xx;q=0.9".toList)
    (by decide) (by decide)

/-- What one pass of the fallback loop computes: either the first truthy
value among the scanned languages (skipping the active one), or `""`
when none is truthy. -/
theorem fallback_scan_spec (obj : Entity) (fieldPref language : PyStr)
    (ls : List PyStr) :
    (∃ l l₁ l₂, ls = l₁ ++ l :: l₂ ∧ l ≠ language ∧
      pyTruthy (pyGetAttr obj (localizedFieldName fieldPref l)) ∧
      fallback_scan obj fieldPref language ls
        = (pyGetAttr obj (localizedFieldName fieldPref l)).getD [] ∧
      (∀ l' ∈ l₁, l' ≠ language →
        ¬ pyTruthy (pyGetAttr obj (localizedFieldName fieldPref l')) = true)) ∨
    ((∀ l ∈ ls, l ≠ language →
        ¬ pyTruthy (pyGetAttr obj (localizedFieldName fieldPref l)) = true) ∧
      fallback_scan obj fieldPref language ls = []) := by
  induction ls with
  | nil => exact Or.inr ⟨by simp, rfl⟩
  | cons x xs ih =>
    by_cases hx : x = language
    · rcases ih with ⟨l, l₁, l₂, hdec, hl, hlt, hres, hbef⟩ | ⟨hall, hres⟩
      · left
        refine ⟨l, x :: l₁, l₂, by rw [hdec, List.cons_append], hl, hlt, ?_, ?_⟩
        · rw [show fallback_scan obj fieldPref language (x :: xs)
              = fallback_scan obj fieldPref language xs from by
            simp [fallback_scan, hx]]
          exact hres
        · intro l' hl' hne
          rcases List.mem_cons.mp hl' with rfl | hl'
          · exact absurd hx hne
          · exact hbef l' hl' hne
      · right
        refine ⟨?_, by simp [fallback_scan, hx, hres]⟩
        intro l hl hne
        rcases List.mem_cons.mp hl with rfl | hl
        · exact absurd hx hne
        · exact hall l hl hne
    · by_cases ht : pyTruthy (pyGetAttr obj (localizedFieldName fieldPref x))
      · left
        exact ⟨x, [], xs, rfl, hx, ht, by simp [fallback_scan, hx, ht], by simp⟩
      · rcases ih with ⟨l, l₁, l₂, hdec, hl, hlt, hres, hbef⟩ | ⟨hall, hres⟩
        · left
          refine ⟨l, x :: l₁, l₂, by rw [hdec, List.cons_append], hl, hlt, ?_, ?_⟩
          · rw [show fallback_scan obj fieldPref language (x :: xs)
                = fallback_scan obj fieldPref language xs from by
              simp [fallback_scan, hx, ht]]
            exact hres
          · intro l' hl' hne
            rcases List.mem_cons.mp hl' with rfl | hl'
            · exact fun h => ht h
            · exact hbef l' hl' hne
        · right
          refine ⟨?_, by simp [fallback_scan, hx, ht, hres]⟩
          intro l hl hne
          rcases List.mem_cons.mp hl with rfl | hl
          · exact fun h => ht h
          · exact hall l hl hne

/-- C5: the resolver returns `field_prefix_language` when that attribute
is truthy; otherwise the first truthy value over the configured language
list in declared order skipping the active language; otherwise `""`.
`get_localized_content` computes the same function (its literal fallback
list equals the configured one), and on the round-trip example
(`content_en = "X"`, others empty) resolving for `ru` and for `en` both
give `"X"`. -/
theorem c5_localized_field_resolver :
    (∀ (obj : Entity) (fieldPref language : PyStr),
      (pyTruthy (pyGetAttr obj (localizedFieldName fieldPref language)) →
        get_localized_model_field obj fieldPref language
          = (pyGetAttr obj (localizedFieldName fieldPref language)).getD []) ∧
      (¬ pyTruthy (pyGetAttr obj (localizedFieldName fieldPref language)) →
        (∃ l l₁ l₂, supported_languages = l₁ ++ l :: l₂ ∧ l ≠ language ∧
          pyTruthy (pyGetAttr obj (localizedFieldName fieldPref l)) ∧
          get_localized_model_field obj fieldPref language
            = (pyGetAttr obj (localizedFieldName fieldPref l)).getD [] ∧
          (∀ l' ∈ l₁, l' ≠ language →
            ¬ pyTruthy (pyGetAttr obj (localizedFieldName fieldPref l')) = true)) ∨
        ((∀ l ∈ supported_languages, l ≠ language →
            ¬ pyTruthy (pyGetAttr obj (localizedFieldName fieldPref l)) = true) ∧
          get_localized_model_field obj fieldPref language = [])) ∧
      get_localized_content obj fieldPref language
        = get_localized_model_field obj fieldPref language) ∧
    get_localized_model_field content_sample ("content".toList) ("ru".toList)
      = "X".toList ∧
    get_localized_model_field content_sample ("content".toList) ("en".toList)
      = "X".toList := by
  refine ⟨?_, by decide, by decide⟩
  intro obj fieldPref language
  refine ⟨?_, ?_, rfl⟩
  · intro h
    simp [get_localized_model_field, h]
  · intro h
    have hres : get_localized_model_field obj fieldPref language
        = fallback_scan obj fieldPref language supported_languages := by
      simp [get_localized_model_field, h]
    rw [hres]
    exact fallback_scan_spec obj fieldPref language supported_languages

/-- Closed instantiation of `c5_localized_field_resolver`: on the sample
entity, resolving `content` for `en` returns that attribute's own value
(the truthy-branch hypothesis discharged concretely). -/
theorem c5_localized_field_resolver_witness :
    get_localized_model_field content_sample ("content".toList) ("en".toList)
      = (pyGetAttr content_sample
          (localizedFieldName ("content".toList) ("en".toList))).getD [] :=
  (c5_localized_field_resolver.1 content_sample ("content".toList)
    ("en".toList)).1 (by decide)

/-- `lang in data` holds exactly when `data[lang]` yields a value. -/
theorem dictContains_iff_dictGet (d : MultilingualData) (k : PyStr) :
    dictContains d k = true ↔ ∃ v, dictGet d k = some v := by
  unfold dictContains dictGet
  rw [List.any_eq_true]
  constructor
  · rintro ⟨kv, hkv, hbeq⟩
    have hs : (d.find? (fun kv => kv.1 == k)).isSome :=
      List.find?_isSome.mpr ⟨kv, hkv, hbeq⟩
    rcases Option.isSome_iff_exists.mp hs with ⟨kv', hkv'⟩
    exact ⟨kv'.2, by rw [hkv']; rfl⟩
  · rintro ⟨v, hv⟩
    rcases Option.map_eq_some'.mp hv with ⟨kv, hkv, _⟩
    exact List.find?_isSome.mp (by rw [hkv]; rfl)

/-- The validation loop accepts exactly when every listed language has a
value whose stripped form is non-empty. -/
theorem validate_loop_iff (data : MultilingualData) (ls : List PyStr) :
    validate_loop data ls = true ↔
      ∀ lang ∈ ls, ∃ v, dictGet data lang = some v ∧ pyStrip v ≠ [] := by
  induction ls with
  | nil => simp [validate_loop]
  | cons x xs ih =>
    unfold validate_loop
    by_cases hc : dictContains data x
    · rcases (dictContains_iff_dictGet data x).mp hc with ⟨v, hv⟩
      by_cases hs : pyStrip v = []
      · rw [if_pos (Or.inr (by rw [hv, Option.getD_some]; exact hs))]
        refine iff_of_false (by simp) (fun hall => ?_)
        rcases hall x (List.mem_cons_self x xs) with ⟨v', hv', hsv'⟩
        rw [hv] at hv'
        cases hv'
        exact hsv' hs
      · have hcondneg :
            ¬ (¬ dictContains data x
              ∨ pyStrip ((dictGet data x).getD []) = []) := by
          rintro (hcond | hcond)
          · exact hcond hc
          · rw [hv, Option.getD_some] at hcond
            exact hs hcond
        rw [if_neg hcondneg, ih]
        constructor
        · intro hxs lang hl
          rcases List.mem_cons.mp hl with rfl | hl
          · exact ⟨v, hv, hs⟩
          · exact hxs lang hl
        · intro hall lang hl
          exact hall lang (List.mem_cons_of_mem x hl)
    · rw [if_pos (Or.inl hc)]
      refine iff_of_false (by simp) (fun hall => ?_)
      rcases hall x (List.mem_cons_self x xs) with ⟨v', hv', _⟩
      exact hc ((dictContains_iff_dictGet data x).mpr ⟨v', hv'⟩)

/-- C7: the multilingual-payload validator accepts exactly when every
required language (the full configured set when no explicit list is
given) carries a value that is non-empty after stripping; rejection is
total (the single boolean refuses the whole payload). -/
theorem c7_validate_multilingual_data (data : MultilingualData)
    (required_languages : Option (List PyStr)) :
    (validate_multilingual_data data required_languages = true ↔
      ∀ lang ∈ required_languages.getD supported_languages,
        ∃ v, dictGet data lang = some v ∧ pyStrip v ≠ []) ∧
    validate_multilingual_data data none
      = validate_multilingual_data data (some supported_languages) :=
  ⟨validate_loop_iff data _, rfl⟩

/-- C1 counterexample: a token whose type claim is `"refresh"` (minted
by `create_refresh_token` for the active user `alice`) is accepted by
`get_current_user` — the access-token check does not reject it. -/
theorem c1_access_check_accepts_refresh_token :
    (create_refresh_token test_secret 0 1).claims.typ
      = some ("refresh".toList) ∧
    get_current_user test_secret 0 [alice]
      (create_refresh_token test_secret 0 1) = .ok alice := by
  decide

/-- C1 (amended): the refresh endpoint rejects with Unauthorized every
token whose type claim is not `"refresh"` (whether the decode fails or
the type test fails); the access-token check never consults the type
claim — its outcome is invariant under replacing the type claim. -/
theorem c1_refresh_type_gating :
    (∀ (secret : PyStr) (now : Int) (db : DB) (tok : SignedToken),
      tok.claims.typ ≠ some ("refresh".toList) →
      refresh_endpoint secret now db tok = .error .unauthorized) ∧
    (∀ (secret : PyStr) (now : Int) (db : DB) (claims : TokenClaims)
      (key : PyStr) (t t' : Option PyStr),
      get_current_user secret now db ⟨{ claims with typ := t }, key⟩
        = get_current_user secret now db ⟨{ claims with typ := t' }, key⟩) := by
  constructor
  · intro secret now db tok hty
    by_cases h1 : tok.signedWith ≠ secret
    · simp [refresh_endpoint, decode_token, h1]
    · by_cases h2 : tok.claims.exp ≤ now
      · simp [refresh_endpoint, decode_token, h1, h2]
      · simp [refresh_endpoint, decode_token, h1, h2, hty]
        intro h
        exact absurd h hty
  · intro secret now db claims key t t'
    by_cases h1 : key ≠ secret
    · simp [get_current_user, decode_token, h1]
    · by_cases h2 : claims.exp ≤ now
      · simp [get_current_user, decode_token, h1, h2]
      · simp [get_current_user, decode_token, h1, h2]

/-- Closed instantiation of `c1_refresh_type_gating`: sending an access
token to the refresh endpoint yields Unauthorized. -/
theorem c1_refresh_type_gating_witness :
    refresh_endpoint test_secret 0 [alice]
      (create_access_token test_secret 0 1) = .error .unauthorized :=
  c1_refresh_type_gating.1 test_secret 0 [alice]
    (create_access_token test_secret 0 1) (by decide)

/-- C2: past `get_current_user`, the admin gate succeeds exactly on
`is_admin`, the moderator gate exactly on `is_admin or is_moderator`,
and both yield Forbidden for an active principal with neither flag; an
inactive principal reached through a valid token gets Unauthorized from
all three gates; `verify_user_permissions` computes the same role
predicates under the active flag. -/
theorem c2_role_gates :
    (∀ (secret : PyStr) (now : Int) (db : DB) (tok : SignedToken) (u : User),
      get_current_user secret now db tok = .ok u →
      ((get_admin_user secret now db tok = .ok u) ↔ u.is_admin = true) ∧
      ((get_moderator_user secret now db tok = .ok u)
        ↔ (u.is_admin || u.is_moderator) = true) ∧
      (u.is_admin = false → u.is_moderator = false →
        get_admin_user secret now db tok = .error .forbidden ∧
        get_moderator_user secret now db tok = .error .forbidden)) ∧
    (∀ (secret : PyStr) (now : Int) (db : DB) (tok : SignedToken)
      (uid : Int) (u : User),
      decode_token secret now tok = .ok tok.claims →
      tok.claims.sub = some uid →
      db.find? (fun v => v.id == uid) = some u →
      u.is_active = false →
      get_current_user secret now db tok = .error .unauthorized ∧
      get_admin_user secret now db tok = .error .unauthorized ∧
      get_moderator_user secret now db tok = .error .unauthorized) ∧
    (∀ u : User,
      verify_user_permissions u ("admin".toList)
        = (u.is_active && u.is_admin) ∧
      verify_user_permissions u ("moderator".toList)
        = (u.is_active && (u.is_admin || u.is_moderator))) := by
  refine ⟨?_, ?_, ?_⟩
  · intro secret now db tok u hcur
    refine ⟨?_, ?_, ?_⟩
    · unfold get_admin_user
      rw [hcur]
      cases ha : u.is_admin <;> simp [ha]
    · unfold get_moderator_user
      rw [hcur]
      cases ha : u.is_admin <;> cases hm : u.is_moderator <;> simp [ha, hm]
    · intro ha hm
      unfold get_admin_user get_moderator_user
      rw [hcur]
      simp [ha, hm]
  · intro secret now db tok uid u hdec hsub hfind hact
    have hcur : get_current_user secret now db tok = .error .unauthorized := by
      unfold get_current_user
      rw [hdec]
      simp [hsub, hfind, hact]
    refine ⟨hcur, ?_, ?_⟩
    · unfold get_admin_user
      rw [hcur]
    · unfold get_moderator_user
      rw [hcur]
  · intro u
    cases hact : u.is_active <;> simp [verify_user_permissions, hact]

/-- Closed instantiation of `c2_role_gates`: for the admin `bob` behind
a fresh valid access token, the admin gate succeeds exactly as his admin
flag says. -/
theorem c2_role_gates_witness :
    (get_admin_user test_secret 0 [bob] (create_access_token test_secret 0 2)
      = .ok bob) ↔ bob.is_admin = true :=
  (c2_role_gates.1 test_secret 0 [bob] (create_access_token test_secret 0 2)
    bob (by decide)).1

/-- C8: a failed login (unknown username, wrong password, or inactive
account) leaves the users table unchanged, in both the endpoint and
`AuthService.authenticate_user`; a successful login changes it exactly
by setting the matched user's last-login to now; and the token-decoding
gate passes the session state through untouched, is idempotent, and
computes the same outcome as its pure reading. -/
theorem c8_last_login_frame :
    (∀ (secret : PyStr) (now : Int) (db : DB) (username password : PyStr)
      (e : GateError),
      (login secret now db username password).1 = .error e →
      (login secret now db username password).2 = db) ∧
    (∀ (secret : PyStr) (now : Int) (db : DB) (username password : PyStr)
      (toks : SignedToken × SignedToken),
      (login secret now db username password).1 = .ok toks →
      (login secret now db username password).2
        = updateFirst (fun v => v.username == username)
            (fun v => { v with last_login := some now }) db) ∧
    (∀ (now : Int) (db : DB) (username password : PyStr),
      (authenticate_user now db username password).1 = none →
      (authenticate_user now db username password).2 = db) ∧
    (∀ (secret : PyStr) (now : Int) (db : DB) (tok : SignedToken),
      (get_current_user_db secret now db tok).2 = db ∧
      get_current_user_db secret now
        ((get_current_user_db secret now db tok).2) tok
        = get_current_user_db secret now db tok ∧
      (get_current_user_db secret now db tok).1
        = get_current_user secret now db tok) := by
  have hgate : ∀ (secret : PyStr) (now : Int) (db : DB) (tok : SignedToken),
      (get_current_user_db secret now db tok).2 = db := by
    intro secret now db tok
    unfold get_current_user_db
    split
    · rfl
    · split
      · rfl
      · split
        · rfl
        · split <;> rfl
  refine ⟨?_, ?_, ?_, ?_⟩
  · intro secret now db username password e
    unfold login
    split
    · intro _
      rfl
    · split
      · intro _
        rfl
      · split
        · intro _
          rfl
        · intro h
          exact absurd h (by simp)
  · intro secret now db username password toks
    unfold login
    split
    · intro h
      exact absurd h (by simp)
    · split
      · intro h
        exact absurd h (by simp)
      · split
        · intro h
          exact absurd h (by simp)
        · intro _
          rfl
  · intro now db username password
    unfold authenticate_user
    split
    · intro _
      rfl
    · split
      · intro _
        rfl
      · split
        · intro _
          rfl
        · intro h
          exact absurd h (by simp)
  · intro secret now db tok
    refine ⟨hgate secret now db tok, ?_, ?_⟩
    · rw [hgate secret now db tok]
    · unfold get_current_user_db get_current_user
      split
      · rfl
      · split
        · rfl
        · split
          · rfl
          · split <;> rfl

/-- Closed instantiation of `c8_last_login_frame`: a successful login of
`alice` rewrites the table to the one where her last-login is the login
instant. -/
theorem c8_last_login_frame_witness :
    (login test_secret 5 [alice] ("alice".toList) ("wonderland".toList)).2
      = updateFirst (fun v => v.username == "alice".toList)
          (fun v => { v with last_login := some 5 }) [alice] :=
  c8_last_login_frame.2.1 test_secret 5 [alice] ("alice".toList)
    ("wonderland".toList)
    (create_access_token test_secret 5 1, create_refresh_token test_secret 5 1)
    (by decide)

/-- C9 counterexample: with every phrase file missing and substitution
arguments supplied, looking up the absent key `"hi \x7bx\x7d"` returns
the substituted string `"hi a"`, not the key verbatim. -/
theorem c9_missing_key_not_verbatim :
    get_localized_text (fun _ => FileResult.missing) ("hi {x}".toList)
      ("en".toList) [("x".toList, "a".toList)] = "hi a".toList ∧
    ("hi a".toList : PyStr) ≠ "hi {x}".toList := by
  constructor
  · simp [get_localized_text, localization_cache, pyFormat, splitFirst,
      Except.map]
  · decide

/-- C9 (amended): the lookup is a total function that never fails; a
missing or unparseable phrase file yields the empty table; an absent
key with no substitution arguments is returned verbatim; with
substitution arguments the format substitution is applied to the
defaulted key, falling back to the key itself when the substitution
fails. -/
theorem c9_phrase_table_lookup :
    (∀ (files : PyStr → FileResult) (language : PyStr),
      (files language = FileResult.missing ∨
        files language = FileResult.invalid) →
      localization_cache files language = []) ∧
    (∀ (files : PyStr → FileResult) (key language : PyStr),
      (localization_cache files language).find? (fun kv => kv.1 == key)
        = none →
      get_localized_text files key language [] = key) ∧
    (∀ (files : PyStr → FileResult) (key language : PyStr)
      (kwargs : List (PyStr × PyStr)),
      kwargs ≠ [] →
      (localization_cache files language).find? (fun kv => kv.1 == key)
        = none →
      get_localized_text files key language kwargs
        = match pyFormat kwargs key with
          | .ok t => t
          | .error _ => key) := by
  refine ⟨?_, ?_, ?_⟩
  · intro files language h
    unfold localization_cache
    rcases h with h | h <;> rw [h] <;> split <;> rfl
  · intro files key language hfind
    unfold get_localized_text
    simp [hfind]
  · intro files key language kwargs hk hfind
    unfold get_localized_text
    simp [hfind, hk]

/-- Closed instantiation of `c9_phrase_table_lookup`: an absent key with
no substitution arguments comes back verbatim. -/
theorem c9_phrase_table_lookup_witness :
    get_localized_text (fun _ => FileResult.missing) ("welcome".toList)
      ("en".toList) [] = "welcome".toList :=
  c9_phrase_table_lookup.2.1 (fun _ => FileResult.missing) ("welcome".toList)
    ("en".toList) (by rfl)

/-- C10: for every pair of integers `(skip, limit)` the validator returns
`(max 0 skip, max 1 (min limit max_page_size))`, hence the validated skip
is non-negative and the validated limit lies in `[1, max_page_size]`. -/
theorem c10_validate_pagination_params (skip limit : Int) :
    validate_pagination_params skip limit
      = (max 0 skip, max 1 (min limit max_page_size)) ∧
    0 ≤ (validate_pagination_params skip limit).1 ∧
    1 ≤ (validate_pagination_params skip limit).2 ∧
    (validate_pagination_params skip limit).2 ≤ max_page_size := by
  refine ⟨rfl, le_max_left _ _, le_max_left _ _, ?_⟩
  have h1 : min limit max_page_size ≤ max_page_size := min_le_right _ _
  have h2 : (1 : Int) ≤ max_page_size := by norm_num [max_page_size]
  exact max_le h2 h1

end TMSITI
